import Mathlib

/-!
Verification of the chart-preview-database download pipeline.

The repository has two Python scripts:
* `scripts/main.py` — concurrent downloader: per-song task generation
  (`process_song`), a retrying fetcher with content-hash deduplication
  (`download_image`), an imgur rate limiter, and run-end aggregation (`main`).
* `scripts/generate_previews.py` — offline scan of the persisted `charts/`
  tree producing the `previews.json` manifest (`parse_filename`,
  `scan_charts_directory`).

Python strings are embedded as `List Char` (`PyStr`); bytes as `List Nat`;
rational numbers model wall-clock durations; network and filesystem effects
are passed explicitly (an attempt oracle for HTTP requests, an
`Option Bytes` for the file at the destination path).
-/

namespace ChartDB

/-- Python `str` is modelled as a list of characters. -/
abbrev PyStr := List Char

/-- Raw response bodies (`response.content`). -/
abbrev Bytes := List Nat

/-- ASCII lower-casing of one character, modelling Python `str.lower` on the
ASCII range (the only characters produced by the scripts' string literals). -/
def pyLower (c : Char) : Char :=
  if 65 ≤ c.toNat ∧ c.toNat ≤ 90 then Char.ofNat (c.toNat + 32) else c

/-- Python `str.lower`. -/
def strLower (s : PyStr) : PyStr := s.map pyLower

/-- Is `c` an ASCII decimal digit (`'0'`..`'9'`), as used by `str.isdigit`
and `int()` on ASCII input. -/
def isDigitChar (c : Char) : Bool :=
  if 48 ≤ c.toNat ∧ c.toNat ≤ 57 then true else false

/-- Python `str(n)` for a non-negative integer: most-significant digit first.
The first argument is fuel (`n` itself suffices) making the
division-by-ten recursion structural. -/
def natDigitsAux : Nat → Nat → List Char
  | 0, _ => []
  | _ + 1, 0 => []
  | fuel + 1, n + 1 =>
    natDigitsAux fuel ((n + 1) / 10) ++ [Char.ofNat (48 + (n + 1) % 10)]

/-- Python `str(n)` for a natural number (`f"{n}"`). -/
def natStr (n : Nat) : PyStr :=
  if n = 0 then ['0'] else natDigitsAux n n

/-- Strip leading and trailing whitespace, modelling `str.strip()` as
performed by Python `int()` before parsing. -/
def pyStrip (s : PyStr) : PyStr :=
  ((s.dropWhile Char.isWhitespace).reverse.dropWhile Char.isWhitespace).reverse

/-- Parse a non-empty all-digit character list into a natural number. -/
def parseDigits? (ds : PyStr) : Option Nat :=
  if ds ≠ [] ∧ ds.all isDigitChar then
    some (ds.foldl (fun a c => a * 10 + (c.toNat - 48)) 0)
  else none

/-- Python `int(s)` on the strings reachable in this program: surrounding
whitespace is stripped, an optional single sign is allowed, then a non-empty
run of decimal digits.  (Python also accepts underscores between digits, but
`parse_filename` only calls `int` on pieces of a string already split on
`"_"`, so no underscore can reach it.)  `none` models `ValueError`. -/
def py_int? (s : PyStr) : Option Int :=
  match pyStrip s with
  | [] => none
  | c :: rest =>
    if c = '+' then (parseDigits? rest).map Int.ofNat
    else if c = '-' then (parseDigits? rest).map (fun n => -(n : Int))
    else (parseDigits? (c :: rest)).map Int.ofNat

/-- Python `sub in s` substring test: is `needle` a prefix of `hay`? -/
def isPrefixAt : PyStr → PyStr → Bool
  | [], _ => true
  | _ :: _, [] => false
  | a :: as, b :: bs => a == b && isPrefixAt as bs

/-- Python `sub in s` substring test. -/
def hasSub (needle : PyStr) : PyStr → Bool
  | [] => needle.isEmpty
  | c :: cs => isPrefixAt needle (c :: cs) || hasSub needle cs

/-- Python `s.split(sep)` for a one-character separator: splits at every
occurrence, keeping empty pieces, always returning at least one piece. -/
def pySplit (sep : Char) : PyStr → List PyStr
  | [] => [[]]
  | c :: cs =>
    if c = sep then [] :: pySplit sep cs
    else
      match pySplit sep cs with
      | [] => [[c]]
      | p :: ps => (c :: p) :: ps

/-- The final path component (`pathlib` name): the part after the last `/`. -/
def lastComponent (p : PyStr) : PyStr :=
  (p.reverse.takeWhile (fun c => c ≠ '/')).reverse

/-- `pathlib` stem/suffix split of a file *name*: CPython computes
`i = name.rfind('.')` and splits at `i` when `0 < i < len(name) - 1`,
otherwise the stem is the whole name and the suffix empty.
Returns `some (stem, suffix)` when the split happens. -/
def nameDotSplit (name : PyStr) : Option (PyStr × PyStr) :=
  if name.contains '.' then
    if 0 < (name.reverse.takeWhile (fun c => c ≠ '.')).length ∧
        (name.reverse.takeWhile (fun c => c ≠ '.')).length + 1 <
          name.length then
      some
        ((name.reverse.drop
            ((name.reverse.takeWhile (fun c => c ≠ '.')).length + 1)).reverse,
          '.' :: (name.reverse.takeWhile (fun c => c ≠ '.')).reverse)
    else none
  else none

/-- `Path(p).stem`: final component with its suffix removed. -/
def pathStem (p : PyStr) : PyStr :=
  match nameDotSplit (lastComponent p) with
  | some (s, _) => s
  | none => lastComponent p

/-- `Path(p).suffix`: the extension of the final component (with the dot),
or empty. -/
def pathSuffix (p : PyStr) : PyStr :=
  match nameDotSplit (lastComponent p) with
  | some (_, e) => e
  | none => []

/-- `os.path.splitext(p)[1]`: the extension of `p`'s final component, where a
run of leading dots in the final component never starts an extension
(so `.bashrc` has no extension, unlike the `pathlib` rule). -/
def splitext_ext (p : PyStr) : PyStr :=
  if ((lastComponent p).dropWhile (fun c => c = '.')).contains '.' then
    '.' :: (((lastComponent p).dropWhile (fun c => c = '.')).reverse.takeWhile
      (fun c => c ≠ '.')).reverse
  else []

/-! ### scripts/main.py — rate limiter -/

/-- `IMGUR_MIN_INTERVAL = 2` (seconds). -/
def IMGUR_MIN_INTERVAL : ℚ := 2

/-- `"i.imgur.com" in url`. -/
def isImgurUrl (url : PyStr) : Bool := hasSub "i.imgur.com".data url

/-- The sleep performed inside the imgur critical section: with the shared
`imgur_last_request_time` equal to `last` and `time.time()` reading `now`,
the worker sleeps `IMGUR_MIN_INTERVAL - (now - last)` when the elapsed time
is below the minimum interval, else not at all. -/
def imgur_sleep (last now : ℚ) : ℚ :=
  if now - last < IMGUR_MIN_INTERVAL then IMGUR_MIN_INTERVAL - (now - last)
  else 0

/-- Sleep performed by the gate for an arbitrary URL: only URLs containing
`i.imgur.com` are throttled. -/
def gate_sleep (url : PyStr) (last now : ℚ) : ℚ :=
  if isImgurUrl url then imgur_sleep last now else 0

/-- One mutex-serialized pass through the imgur gate, as observed in real
time.  An event `(enter, record)` is one worker's critical section: `enter`
is its `time.time()` reading on entry and `record` the reading written back
to `imgur_last_request_time` after the (possibly zero) sleep, immediately
before the worker issues its request (its effective request start).
`validTrace last evs` says the events happen in mutex order after state
`last`: each worker enters no earlier than the previous recorded time
(the clock is monotone and the mutex serializes the sections), and its
recorded time is no earlier than its entry time plus the sleep it performed
(`time.sleep` never undershoots). -/
def validTrace : ℚ → List (ℚ × ℚ) → Prop
  | _, [] => True
  | last, e :: rest =>
    last ≤ e.1 ∧ e.1 + imgur_sleep last e.1 ≤ e.2 ∧ validTrace e.2 rest

/-! ### scripts/main.py — retrying fetcher with hash deduplication -/

/-- What one `requests.get` attempt does, after `raise_for_status`:
a 2xx body, an `HTTPError` with its status code, or any other exception
(timeouts, connection errors, ...) with its type name and message. -/
inductive Attempt where
  | ok (content : Bytes)
  | httpError (status : Nat) (msg : PyStr)
  | exc (ename emsg : PyStr)
deriving DecidableEq

/-- Is the attempt outcome retried by `download_image`?  HTTP 429 and every
non-`HTTPError` exception are; everything else is not. -/
def Attempt.retryable : Attempt → Bool
  | .ok _ => false
  | .httpError status _ => status == 429
  | .exc _ _ => true

/-- The overloaded return value of `download_image`:
`True` / `"skipped"` / `(False, reason)`. -/
inductive DL where
  | success
  | skipped
  | failed (reason : PyStr)
deriving DecidableEq

/-- Result of one `download_image` call: its classified return value, the
final content of the file at `save_path`, and the backoff sleeps it
performed (the imgur gate is modelled separately by `validTrace`). -/
structure DLOut where
  result : DL
  file : Option Bytes
  sleeps : List ℚ
deriving DecidableEq

/-- `max_retries = 3`. -/
def max_retries : Nat := 3

/-- `retry_delay = 2` (seconds). -/
def retry_delay : ℚ := 2

/-- The `for attempt in range(max_retries)` loop of `download_image`.
`hash` abstracts `hashlib.sha256(...).hexdigest()`; `att` gives the outcome
of the HTTP attempt with each index; `existing` is the file currently at
`save_path`; `attempt` is the current loop index and `remaining` the number
of iterations left (`max_retries - attempt`).  Exhausting the loop returns
`(False, "Unknown error")`. -/
def dl_loop (hash : Bytes → PyStr) (att : Nat → Attempt)
    (existing : Option Bytes) : Nat → Nat → DLOut
  | _, 0 => ⟨.failed "Unknown error".data, existing, []⟩
  | attempt, r + 1 =>
    match att attempt with
    | .ok content =>
      match existing with
      | some old =>
        if hash old = hash content then ⟨.skipped, some old, []⟩
        else ⟨.success, some content, []⟩
      | none => ⟨.success, some content, []⟩
    | .httpError status msg =>
      if status = 429 then
        if 0 < r then
          ⟨(dl_loop hash att existing (attempt + 1) r).result,
            (dl_loop hash att existing (attempt + 1) r).file,
            retry_delay * 2 ^ attempt ::
              (dl_loop hash att existing (attempt + 1) r).sleeps⟩
        else
          ⟨.failed ("429 Too Many Requests after ".data ++ natStr max_retries
              ++ " attempts".data), existing, []⟩
      else
        ⟨.failed ("HTTP Error ".data ++ natStr status ++ ": ".data ++ msg),
          existing, []⟩
    | .exc ename emsg =>
      if 0 < r then
        ⟨(dl_loop hash att existing (attempt + 1) r).result,
          (dl_loop hash att existing (attempt + 1) r).file,
          retry_delay * 2 ^ attempt ::
            (dl_loop hash att existing (attempt + 1) r).sleeps⟩
      else
        ⟨.failed (ename ++ ": ".data ++ emsg), existing, []⟩

/-- `download_image(url, save_path)`, with the network and the file at
`save_path` passed explicitly. -/
def download_image (hash : Bytes → PyStr) (att : Nat → Attempt)
    (existing : Option Bytes) : DLOut :=
  dl_loop hash att existing 0 max_retries

/-! ### scripts/main.py — filename resolver (inside `process_song`) -/

/-- The extension allow-list of `process_song`. -/
def allowed_extensions : List PyStr :=
  [".jpg".data, ".jpeg".data, ".png".data, ".gif".data, ".bmp".data,
    ".webp".data]

/-- `image_url.split("?")[0]`: the URL with its query string stripped. -/
def url_path (image_url : PyStr) : PyStr :=
  image_url.takeWhile (fun c => c ≠ '?')

/-- `extension = os.path.splitext(url_path)[1] or ".jpg"`: the raw URL
extension before the allow-list check, with the missing-extension default. -/
def raw_extension (image_url : PyStr) : PyStr :=
  if splitext_ext (url_path image_url) = [] then ".jpg".data
  else splitext_ext (url_path image_url)

/-- The extension computed by `process_song`: the raw extension, replaced
by `".jpg"` unless its lower-casing is in the allow-list.  (The surrounding
`try/except` cannot fire: none of these string operations raises.) -/
def resolve_extension (image_url : PyStr) : PyStr :=
  if allowed_extensions.contains (strLower (raw_extension image_url)) then
    raw_extension image_url
  else ".jpg".data

/-- The filename `process_song` produces from a difficulty value, an image
index and an already-resolved extension:
`f"{difficulty_value}{extension}"` for index 0,
`f"{difficulty_value}_{idx + 1}{extension}"` otherwise. -/
def dl_filename (difficulty_value idx : Nat) (extension : PyStr) : PyStr :=
  if idx = 0 then natStr difficulty_value ++ extension
  else natStr difficulty_value ++ '_' :: natStr (idx + 1) ++ extension

/-- Filename for a (difficulty value, index, URL) triple. -/
def resolve_filename (difficulty_value idx : Nat) (image_url : PyStr) :
    PyStr :=
  dl_filename difficulty_value idx (resolve_extension image_url)

/-- `save_path = song_dir / filename`, kept structured as
(song directory name, file name); the base directory `charts` is fixed. -/
def task_path (song_no : PyStr) (difficulty_value idx : Nat)
    (image_url : PyStr) : PyStr × PyStr :=
  (song_no, resolve_filename difficulty_value idx image_url)

/-! ### scripts/main.py — per-song processing and run aggregation -/

/-- A course object: its (possibly missing, then empty) `images` list. -/
structure Course where
  images : List PyStr
deriving DecidableEq

/-- A song record: the `songNo` field (`none` models a missing/None field,
`some []` an empty string — both falsy) and the `courses` mapping,
modelled as an association list. -/
structure Song where
  songNo : Option PyStr
  courses : List (PyStr × Option Course)
deriving DecidableEq

/-- `difficulty_mapping = {"easy": 1, "normal": 2, "hard": 3, "oni": 4,
"ura": 5}`, in iteration (insertion) order. -/
def difficulty_mapping : List (PyStr × Nat) :=
  [("easy".data, 1), ("normal".data, 2), ("hard".data, 3), ("oni".data, 4),
    ("ura".data, 5)]

/-- `if not song_no:` — true for a missing/None field and for falsy values
such as the empty string. -/
def falsyId : Option PyStr → Bool
  | none => true
  | some s => s.isEmpty

/-- The per-song counters returned by `process_song`. -/
structure Stats where
  success : Nat
  failed : Nat
  skipped : Nat
deriving DecidableEq

/-- Pointwise addition of counters (`total_x += result["x"]`). -/
def addStats (a b : Stats) : Stats :=
  ⟨a.success + b.success, a.failed + b.failed, a.skipped + b.skipped⟩

/-- An entry of the `failed_downloads` ledger. -/
structure Failure where
  song_no : PyStr
  url : PyStr
  reason : PyStr
deriving DecidableEq

/-- Everything `process_song` does to shared state, besides the counters it
returns: the failure-ledger entries it appends and the directories it
creates. -/
structure SongResult where
  stats : Stats
  failures : List Failure
  dirs : List PyStr
deriving DecidableEq

/-- The body of the innermost loop of `process_song` for one
`(idx, image_url)` pair: empty URLs are skipped (`if not image_url:
continue`), otherwise the image is downloaded to the resolved path and
classified.  `dl url save_path` abstracts the `download_image` call's
classified return value for this run. -/
def process_image (dl : PyStr → PyStr × PyStr → DL) (song_no : PyStr)
    (difficulty_value idx : Nat) (image_url : PyStr) :
    Stats × List Failure :=
  if image_url.isEmpty then (⟨0, 0, 0⟩, [])
  else
    match dl image_url
        (task_path song_no difficulty_value idx image_url) with
    | .success => (⟨1, 0, 0⟩, [])
    | .skipped => (⟨0, 0, 1⟩, [])
    | .failed reason =>
      (⟨0, 1, 0⟩, [⟨song_no, image_url, reason⟩])

/-- The `for idx, image_url in enumerate(images)` loop, as recursion over
the image list carrying the current index; counters are summed and ledger
entries appended in loop order. -/
def process_course (dl : PyStr → PyStr × PyStr → DL) (song_no : PyStr)
    (difficulty_value : Nat) : Nat → List PyStr → Stats × List Failure
  | _, [] => (⟨0, 0, 0⟩, [])
  | idx, u :: rest =>
    (addStats (process_image dl song_no difficulty_value idx u).1
        (process_course dl song_no difficulty_value (idx + 1) rest).1,
      (process_image dl song_no difficulty_value idx u).2 ++
        (process_course dl song_no difficulty_value (idx + 1) rest).2)

/-- The `for difficulty_key, difficulty_value in difficulty_mapping.items()`
loop: keys absent from `courses` and `None` course objects contribute
nothing (`if difficulty_key in courses` / `if course_data is None:
continue`). -/
def process_courses (dl : PyStr → PyStr × PyStr → DL) (song_no : PyStr)
    (courses : List (PyStr × Option Course)) :
    List (PyStr × Nat) → Stats × List Failure
  | [] => (⟨0, 0, 0⟩, [])
  | kv :: rest =>
    match courses.lookup kv.1 with
    | some (some c) =>
      (addStats (process_course dl song_no kv.2 0 c.images).1
          (process_courses dl song_no courses rest).1,
        (process_course dl song_no kv.2 0 c.images).2 ++
          (process_courses dl song_no courses rest).2)
    | _ => process_courses dl song_no courses rest

/-- `process_song(song, base_dir, difficulty_mapping)`: a falsy `songNo`
returns `{"success": 0, "failed": 0, "skipped": 1}` at once (no directory,
no tasks); otherwise the song directory is created and every difficulty key
of the mapping that is present in `courses` with a non-None course object
has its images downloaded. -/
def process_song (dl : PyStr → PyStr × PyStr → DL) (song : Song) :
    SongResult :=
  if falsyId song.songNo then ⟨⟨0, 0, 1⟩, [], []⟩
  else
    ⟨(process_courses dl (song.songNo.getD []) song.courses
        difficulty_mapping).1,
      (process_courses dl (song.songNo.getD []) song.courses
        difficulty_mapping).2,
      [song.songNo.getD []]⟩

/-- The number of non-empty image URLs one song contributes under the
given difficulty keys. -/
def count_images (courses : List (PyStr × Option Course)) :
    List (PyStr × Nat) → Nat
  | [] => 0
  | kv :: rest =>
    match courses.lookup kv.1 with
    | some (some c) =>
      c.images.countP (fun u => !u.isEmpty) + count_images courses rest
    | _ => count_images courses rest

/-- The number of non-empty image URLs of one song reachable through the
difficulty mapping (the song's dispatched download tasks). -/
def song_image_count (song : Song) : Nat :=
  count_images song.courses difficulty_mapping

/-- The aggregation loop of `main`: totals over all songs and the combined
failure ledger.  (`as_completed` makes the merge order nondeterministic;
the counters are sums, so any order yields the same totals.  The
`except` branch around `future.result()` is unreachable here because the
modelled `process_song` is total.) -/
def run_main (dl : PyStr → PyStr × PyStr → DL) :
    List Song → Stats × List Failure
  | [] => (⟨0, 0, 0⟩, [])
  | s :: rest =>
    (addStats (process_song dl s).stats (run_main dl rest).1,
      (process_song dl s).failures ++ (run_main dl rest).2)

/-! ### scripts/generate_previews.py — manifest generation -/

/-- `IMAGE_EXTENSIONS = {".jpg", ".jpeg", ".png", ".gif", ".webp"}`
(note: no `".bmp"`, unlike the downloader's allow-list). -/
def IMAGE_EXTENSIONS : List PyStr :=
  [".jpg".data, ".jpeg".data, ".png".data, ".gif".data, ".webp".data]

/-- The raw-content base URL of the repository. -/
def GITHUB_REPO_URL : PyStr :=
  "https://raw.githubusercontent.com/KirisameVanilla/chart-preview-database/refs/heads/main".data

/-- `f"{GITHUB_REPO_URL}/charts/{chart_id}/{filename}"`. -/
def fileUrl (chartId filename : PyStr) : PyStr :=
  GITHUB_REPO_URL ++ "/charts/".data ++ chartId ++ "/".data ++ filename

/-- `parse_filename(filename)`: split the stem on `"_"` into difficulty and
sequence number, or read the whole stem as a difficulty (sequence 1);
`None` for anything unparsable or with a difficulty outside 1..5. -/
def parse_filename (filename : PyStr) : Option (Int × Int) :=
  if (pathStem filename).contains '_' then
    match pySplit '_' (pathStem filename) with
    | [p1, p2] =>
      match py_int? p1, py_int? p2 with
      | some d, some s => if 1 ≤ d ∧ d ≤ 5 then some (d, s) else none
      | _, _ => none
    | _ => none
  else
    match py_int? (pathStem filename) with
    | some d => if 1 ≤ d ∧ d ≤ 5 then some (d, 1) else none
    | none => none

/-- `file_path.suffix.lower() in IMAGE_EXTENSIONS`. -/
def isImageFile (filename : PyStr) : Bool :=
  IMAGE_EXTENSIONS.contains (strLower (pathSuffix filename))

/-- The `(sequence, filename)` pairs a chart directory's files contribute to
one difficulty: image files whose names parse to that difficulty, in
directory order, then sorted by sequence number.  Python's `list.sort`
is stable, as is `List.insertionSort`. -/
def collectDifficulty (files : List PyStr) (d : Int) :
    List (Int × PyStr) :=
  List.insertionSort (fun a b => a.1 ≤ b.1)
    (files.filterMap fun fn =>
      if isImageFile fn then
        match parse_filename fn with
        | some (d', seq) => if d' = d then some (seq, fn) else none
        | none => none
      else none)

/-- The `difficulties` dict built for one chart directory: keys `"1"`..`"5"`
in order, each with the sequence-sorted URL list of its files. -/
def scan_song (chartId : PyStr) (files : List PyStr) :
    List (PyStr × List PyStr) :=
  (List.range 5).map fun j =>
    (natStr (j + 1),
      (collectDifficulty files ((j : Int) + 1)).map fun p =>
        fileUrl chartId p.2)

/-- The sort key for chart directories:
`int(p.name) if p.name.isdigit() else 0`. -/
def dirKey (name : PyStr) : Int :=
  if name ≠ [] ∧ name.all isDigitChar then
    (name.foldl (fun a c => a * 10 + (c.toNat - 48)) 0 : Nat)
  else 0

/-- `scan_charts_directory`: chart directories sorted (stably) by numeric
name, each mapped to its per-difficulty URL lists.  A directory tree is a
list of `(directory name, file names)` pairs. -/
def scan_charts (dirs : List (PyStr × List PyStr)) :
    List (PyStr × List (PyStr × List PyStr)) :=
  (List.insertionSort (fun a b => dirKey a.1 ≤ dirKey b.1) dirs).map
    fun e => (e.1, scan_song e.1 e.2)

/-- Well-formedness of an extension string as used in produced filenames:
a dot followed by a non-empty run of characters containing no dot, no
underscore and no slash.  Every extension the downloader can emit has this
shape (`extOk_of_allowed`). -/
def extOk : PyStr → Bool
  | [] => false
  | c :: rest =>
    c == '.' && !rest.isEmpty &&
      rest.all fun d => d ≠ '.' && d ≠ '_' && d ≠ '/'

/-- The sequence-sorting relation of `scan_charts_directory`
(`files.sort(key=lambda x: x[0])`) is total. -/
instance : IsTotal (Int × PyStr) (fun a b => a.1 ≤ b.1) :=
  ⟨fun a b => le_total a.1 b.1⟩

/-- The sequence-sorting relation is transitive. -/
instance : IsTrans (Int × PyStr) (fun a b => a.1 ≤ b.1) :=
  ⟨fun _ _ _ h1 h2 => le_trans h1 h2⟩

/-! ### Helper lemmas: digits and `str(n)` / `int(s)` round trip -/

theorem isDigitChar_toNat {c : Char} (h : isDigitChar c = true) :
    48 ≤ c.toNat ∧ c.toNat ≤ 57 := by
  by_cases hb : 48 ≤ c.toNat ∧ c.toNat ≤ 57
  · exact hb
  · simp [isDigitChar, hb] at h

theorem digit_char_toNat {r : Nat} (h : r < 10) :
    (Char.ofNat (48 + r)).toNat = 48 + r := by
  interval_cases r <;> decide

theorem digit_char_isDigit {r : Nat} (h : r < 10) :
    isDigitChar (Char.ofNat (48 + r)) = true := by
  interval_cases r <;> decide

theorem natDigitsAux_all_digits :
    ∀ fuel n, (natDigitsAux fuel n).all isDigitChar = true := by
  intro fuel
  induction fuel with
  | zero => intro n; rfl
  | succ f ih =>
    intro n
    match n with
    | 0 => rfl
    | m + 1 =>
      rw [natDigitsAux, List.all_append, ih]
      simp [List.all_cons, digit_char_isDigit (Nat.mod_lt _ (by norm_num))]

theorem natStr_all_digits (n : Nat) : (natStr n).all isDigitChar = true := by
  unfold natStr
  split
  · rfl
  · exact natDigitsAux_all_digits n n

theorem natDigitsAux_foldl (a0 : Nat) :
    ∀ fuel n, n ≤ fuel →
      (natDigitsAux fuel n).foldl (fun a c => a * 10 + (c.toNat - 48)) a0 =
        a0 * 10 ^ (natDigitsAux fuel n).length + n := by
  intro fuel
  induction fuel generalizing a0 with
  | zero =>
    intro n hn
    interval_cases n
    simp [natDigitsAux]
  | succ f ih =>
    intro n hn
    match n with
    | 0 => simp [natDigitsAux]
    | m + 1 =>
      rw [natDigitsAux, List.foldl_append]
      have hq : (m + 1) / 10 ≤ f :=
        Nat.le_of_lt_succ (Nat.lt_of_lt_of_le
          (Nat.div_lt_self (Nat.succ_pos m) (by norm_num)) hn)
      rw [ih a0 _ hq]
      have hr : (m + 1) % 10 < 10 := Nat.mod_lt _ (by norm_num)
      simp only [List.foldl_cons, List.foldl_nil, List.length_append,
        List.length_cons, List.length_nil, digit_char_toNat hr]
      have : 48 + (m + 1) % 10 - 48 = (m + 1) % 10 := by omega
      rw [this, pow_succ]
      have := Nat.div_add_mod (m + 1) 10
      ring_nf
      omega

theorem natDigitsAux_ne_nil {fuel n : Nat} (h0 : 0 < n) (hf : n ≤ fuel) :
    natDigitsAux fuel n ≠ [] := by
  match fuel, n with
  | 0, n => exact absurd (h0.trans_le hf) (by omega)
  | f + 1, 0 => exact absurd h0 (by omega)
  | f + 1, m + 1 => simp [natDigitsAux]

theorem parseDigits?_natStr (n : Nat) : parseDigits? (natStr n) = some n := by
  by_cases h0 : n = 0
  · subst h0; decide
  · unfold natStr
    rw [if_neg h0]
    unfold parseDigits?
    rw [if_pos ⟨natDigitsAux_ne_nil (Nat.pos_of_ne_zero h0) le_rfl,
      natDigitsAux_all_digits n n⟩]
    rw [natDigitsAux_foldl 0 n n le_rfl]
    simp

theorem digit_not_whitespace {c : Char} (h : isDigitChar c = true) :
    c.isWhitespace = false := by
  have h48 := isDigitChar_toNat h
  by_contra hw
  rw [Bool.not_eq_false] at hw
  simp only [Char.isWhitespace, Bool.or_eq_true, decide_eq_true_eq] at hw
  rcases hw with ((h1 | h1) | h1) | h1 <;>
    (subst h1; exact absurd h48 (by decide))

theorem digit_ne {c x : Char} (h : isDigitChar c = true)
    (hx : x.toNat < 48 ∨ 57 < x.toNat) : c ≠ x := by
  obtain ⟨h1, h2⟩ := isDigitChar_toNat h
  intro he
  subst he
  omega

theorem pyStrip_digits {s : PyStr} (h : s.all isDigitChar = true) :
    pyStrip s = s := by
  have hall : ∀ c ∈ s, isDigitChar c = true := List.all_eq_true.mp h
  have hstep : ∀ (t : PyStr), (∀ c ∈ t, isDigitChar c = true) →
      t.dropWhile Char.isWhitespace = t := by
    intro t ht
    match t with
    | [] => rfl
    | c :: cs =>
      rw [List.dropWhile_cons,
        if_neg (by simp [digit_not_whitespace (ht c (List.mem_cons_self c cs))])]
  rw [pyStrip, hstep s hall, hstep s.reverse
    (fun c hc => hall c (List.mem_reverse.mp hc)), List.reverse_reverse]

theorem py_int?_natStr (n : Nat) : py_int? (natStr n) = some (n : Int) := by
  have hne : natStr n ≠ [] := by
    unfold natStr
    split
    · simp
    · exact natDigitsAux_ne_nil (Nat.pos_of_ne_zero (by assumption)) le_rfl
  obtain ⟨c, rest, hcr⟩ := List.exists_cons_of_ne_nil hne
  have hdig : isDigitChar c = true :=
    List.all_eq_true.mp (natStr_all_digits n) c
      (by rw [hcr]; exact List.mem_cons_self c rest)
  unfold py_int?
  rw [pyStrip_digits (natStr_all_digits n), hcr]
  dsimp only
  rw [if_neg (digit_ne hdig (by decide)), if_neg (digit_ne hdig (by decide))]
  rw [← hcr, parseDigits?_natStr n]
  rfl

theorem natStr_ne_nil (n : Nat) : natStr n ≠ [] := by
  unfold natStr
  split
  · simp
  · exact natDigitsAux_ne_nil (Nat.pos_of_ne_zero (by assumption)) le_rfl

theorem natStr_no_char {n : Nat} {x : Char}
    (hx : x.toNat < 48 ∨ 57 < x.toNat) : x ∉ natStr n := by
  intro hmem
  have := List.all_eq_true.mp (natStr_all_digits n) x hmem
  exact digit_ne this hx rfl

/-! ### Helper lemmas: paths, stems and extensions -/

theorem takeWhile_append_stop {p : Char → Bool} {l r : List Char} {x : Char}
    (hl : ∀ c ∈ l, p c = true) (hx : p x = false) :
    (l ++ x :: r).takeWhile p = l := by
  induction l with
  | nil => simp [List.takeWhile_cons, hx]
  | cons c cs ih =>
    rw [List.cons_append, List.takeWhile_cons,
      if_pos (hl c (List.mem_cons_self c cs)),
      ih (fun d hd => hl d (List.mem_cons_of_mem c hd))]

theorem takeWhile_all {p : Char → Bool} {l : List Char}
    (hl : ∀ c ∈ l, p c = true) : l.takeWhile p = l :=
  List.takeWhile_eq_self_iff.mpr hl

theorem lastComponent_no_slash {p : PyStr} (h : ∀ c ∈ p, c ≠ '/') :
    lastComponent p = p := by
  unfold lastComponent
  rw [takeWhile_all (fun c hc => by
    simp [h c (List.mem_reverse.mp hc)]), List.reverse_reverse]

/-- Splitting a name into a non-empty stem and a well-formed extension:
the extension's dot is the last dot of the name, so the stem may contain
dots itself. -/
theorem nameDotSplit_encode {s t : PyStr} (hs : s ≠ [])
    (ht : t ≠ []) (htd : ∀ c ∈ t, c ≠ '.') :
    nameDotSplit (s ++ '.' :: t) = some (s, '.' :: t) := by
  unfold nameDotSplit
  have hmem : ('.' : Char) ∈ s ++ '.' :: t :=
    List.mem_append_right s (List.mem_cons_self _ _)
  rw [if_pos (by simp)]
  have hrev : (s ++ '.' :: t).reverse = t.reverse ++ '.' :: s.reverse := by
    simp
  rw [hrev]
  have htake : (t.reverse ++ '.' :: s.reverse).takeWhile
      (fun c => decide (c ≠ '.')) = t.reverse :=
    takeWhile_append_stop
      (fun c hc => by simp [htd c (List.mem_reverse.mp hc)]) (by simp)
  rw [htake]
  have hlen : t.reverse.length = t.length := List.length_reverse t
  have hcond : 0 < t.reverse.length ∧
      t.reverse.length + 1 < (s ++ '.' :: t).length := by
    constructor
    · rw [hlen]; exact List.length_pos.mpr ht
    · rw [hlen]
      simp only [List.length_append, List.length_cons]
      have : 0 < s.length := List.length_pos.mpr hs
      omega
  rw [if_pos hcond]
  have hdrop : (t.reverse ++ '.' :: s.reverse).drop (t.reverse.length + 1) =
      s.reverse := by
    have he : t.reverse ++ '.' :: s.reverse =
        (t.reverse ++ ['.']) ++ s.reverse := by simp
    have hl : t.reverse.length + 1 = (t.reverse ++ ['.']).length := by simp
    rw [he, hl, List.drop_left]
  rw [hdrop]
  simp

theorem extOk_shape {e : PyStr} (h : extOk e = true) :
    ∃ t, e = '.' :: t ∧ t ≠ [] ∧
      ∀ c ∈ t, c ≠ '.' ∧ c ≠ '_' ∧ c ≠ '/' := by
  match e with
  | [] => exact absurd h (by decide)
  | c :: t =>
    unfold extOk at h
    simp only [Bool.and_eq_true, beq_iff_eq, Bool.not_eq_true',
      List.all_eq_true, decide_eq_true_eq, Bool.and_eq_true] at h
    obtain ⟨⟨hc, hne⟩, hall⟩ := h
    refine ⟨t, by rw [hc], fun ht => by simp [ht] at hne, fun d hd => ?_⟩
    obtain ⟨⟨h1, h2⟩, h3⟩ := hall d hd
    exact ⟨h1, h2, h3⟩

theorem extOk_intro (t : PyStr) (ht : t ≠ [])
    (hall : ∀ c ∈ t, c ≠ '.' ∧ c ≠ '_' ∧ c ≠ '/') :
    extOk ('.' :: t) = true := by
  unfold extOk
  have h2 : t.isEmpty = false := by simpa using ht
  have h3 : (t.all fun d =>
      decide (d ≠ '.') && decide (d ≠ '_') && decide (d ≠ '/')) = true := by
    rw [List.all_eq_true]
    intro d hd
    obtain ⟨a, b, c⟩ := hall d hd
    simp [a, b, c]
  simp only [extOk, h2, h3]
  simp

theorem pathStem_encode {s t : PyStr} (hs : s ≠ [])
    (hns : ∀ c ∈ s, c ≠ '/') (ht : t ≠ [])
    (htd : ∀ c ∈ t, c ≠ '.' ∧ c ≠ '/') :
    pathStem (s ++ '.' :: t) = s := by
  unfold pathStem
  rw [lastComponent_no_slash (fun c hc => by
    rcases List.mem_append.mp hc with h | h
    · exact hns c h
    · rcases List.mem_cons.mp h with h | h
      · subst h; decide
      · exact (htd c h).2)]
  rw [nameDotSplit_encode hs ht (fun c hc => (htd c hc).1)]

theorem pathSuffix_encode {s t : PyStr} (hs : s ≠ [])
    (hns : ∀ c ∈ s, c ≠ '/') (ht : t ≠ [])
    (htd : ∀ c ∈ t, c ≠ '.' ∧ c ≠ '/') :
    pathSuffix (s ++ '.' :: t) = '.' :: t := by
  unfold pathSuffix
  rw [lastComponent_no_slash (fun c hc => by
    rcases List.mem_append.mp hc with h | h
    · exact hns c h
    · rcases List.mem_cons.mp h with h | h
      · subst h; decide
      · exact (htd c h).2)]
  rw [nameDotSplit_encode hs ht (fun c hc => (htd c hc).1)]

theorem pySplit_no_sep {sep : Char} {l : PyStr} (h : sep ∉ l) :
    pySplit sep l = [l] := by
  induction l with
  | nil => rfl
  | cons c cs ih =>
    have hc : ¬c = sep := fun he => h (he ▸ List.mem_cons_self c cs)
    have h' : sep ∉ cs := fun hm => h (List.mem_cons_of_mem c hm)
    unfold pySplit
    rw [if_neg hc, ih h']

theorem pySplit_pair {sep : Char} {a b : PyStr} (ha : sep ∉ a)
    (hb : sep ∉ b) : pySplit sep (a ++ sep :: b) = [a, b] := by
  induction a with
  | nil =>
    rw [List.nil_append]
    unfold pySplit
    rw [if_pos rfl, pySplit_no_sep hb]
  | cons c cs ih =>
    have hc : ¬c = sep := fun he => ha (he ▸ List.mem_cons_self c cs)
    have ha' : sep ∉ cs := fun hm => ha (List.mem_cons_of_mem c hm)
    rw [List.cons_append]
    unfold pySplit
    rw [if_neg hc, ih ha']

/-! ### Helper lemmas: lower-casing and the extension allow-lists -/

theorem pyLower_upper_toNat {m : Nat} (h1 : 65 ≤ m) (h2 : m ≤ 90) :
    (Char.ofNat (m + 32)).toNat = m + 32 := by
  interval_cases m <;> decide

theorem pyLower_eq_nonletter {c x : Char} (hx : x.toNat < 97)
    (h : pyLower c = x) : c = x := by
  unfold pyLower at h
  split at h
  · next hc =>
    obtain ⟨h1, h2⟩ := hc
    have := congrArg Char.toNat h
    rw [pyLower_upper_toNat h1 h2] at this
    omega
  · exact h

theorem extOk_of_lower {e lit : PyStr} (hlit : extOk lit = true)
    (h : strLower e = lit) : extOk e = true := by
  obtain ⟨u, hl, hu, hall⟩ := extOk_shape hlit
  match e with
  | [] =>
    rw [hl] at h
    exact absurd h (by simp [strLower])
  | c :: rest =>
    rw [hl] at h
    unfold strLower at h
    rw [List.map_cons] at h
    have hc : pyLower c = '.' := (List.cons.injEq _ _ _ _ ▸ h).1
    have hrest : rest.map pyLower = u := (List.cons.injEq _ _ _ _ ▸ h).2
    have hc' : c = '.' := pyLower_eq_nonletter (by decide) hc
    subst hc'
    apply extOk_intro rest
    · intro hr
      rw [hr] at hrest
      exact hu (hrest.symm ▸ rfl)
    · intro d hd
      have hmem : pyLower d ∈ u := hrest ▸ List.mem_map_of_mem pyLower hd
      refine ⟨?_, ?_, ?_⟩
      · intro he
        rw [he, (by decide : pyLower '.' = '.')] at hmem
        exact (hall _ hmem).1 rfl
      · intro he
        rw [he, (by decide : pyLower '_' = '_')] at hmem
        exact (hall _ hmem).2.1 rfl
      · intro he
        rw [he, (by decide : pyLower '/' = '/')] at hmem
        exact (hall _ hmem).2.2 rfl

theorem extOk_of_allowed {e : PyStr}
    (h : allowed_extensions.contains (strLower e) = true) : extOk e = true := by
  have hm : strLower e ∈ allowed_extensions := by
    simpa using h
  simp only [allowed_extensions, List.mem_cons, List.not_mem_nil,
    or_false] at hm
  rcases hm with h' | h' | h' | h' | h' | h' <;>
    exact extOk_of_lower (by decide) h'

theorem extOk_of_image {e : PyStr}
    (h : IMAGE_EXTENSIONS.contains (strLower e) = true) : extOk e = true := by
  have hm : strLower e ∈ IMAGE_EXTENSIONS := by
    simpa using h
  simp only [IMAGE_EXTENSIONS, List.mem_cons, List.not_mem_nil,
    or_false] at hm
  rcases hm with h' | h' | h' | h' | h' <;>
    exact extOk_of_lower (by decide) h'

theorem extOk_resolve_extension (image_url : PyStr) :
    extOk (resolve_extension image_url) = true := by
  unfold resolve_extension
  split
  · next h => exact extOk_of_allowed h
  · decide

/-! ### Helper lemmas: the downloader-name / manifest-parser round trip -/

theorem natStr_no_underscore (n : Nat) : '_' ∉ natStr n :=
  natStr_no_char (Or.inr (by decide))

theorem natStr_no_dot (n : Nat) : '.' ∉ natStr n :=
  natStr_no_char (Or.inl (by decide))

theorem natStr_no_slash (n : Nat) : '/' ∉ natStr n :=
  natStr_no_char (Or.inl (by decide))

theorem contains_false_of_not_mem {l : PyStr} {c : Char} (h : c ∉ l) :
    l.contains c = false := by
  by_contra hc
  rw [Bool.not_eq_false] at hc
  exact h (by simpa using hc)

theorem contains_true_of_mem {l : PyStr} {c : Char} (h : c ∈ l) :
    l.contains c = true := by
  simpa using h

/-- Round trip: `parse_filename` applied to the name the downloader writes
for difficulty value `d` (1..5), image index `idx` and well-formed
extension `ext` recovers difficulty `d` with sequence number `idx + 1`. -/
theorem parse_dl_filename {d idx : Nat} {ext : PyStr} (h1 : 1 ≤ d)
    (h5 : d ≤ 5) (hx : extOk ext = true) :
    parse_filename (dl_filename d idx ext) =
      some ((d : Int), ((idx + 1 : Nat) : Int)) := by
  obtain ⟨t, he, ht, hall⟩ := extOk_shape hx
  subst he
  have hrange : 1 ≤ (d : Int) ∧ (d : Int) ≤ 5 :=
    ⟨by exact_mod_cast h1, by exact_mod_cast h5⟩
  by_cases h0 : idx = 0
  · subst h0
    unfold dl_filename
    rw [if_pos rfl]
    unfold parse_filename
    have hstem : pathStem (natStr d ++ '.' :: t) = natStr d :=
      pathStem_encode (natStr_ne_nil d)
        (fun c hc he => natStr_no_slash d (he ▸ hc)) ht
        (fun c hc => ⟨(hall c hc).1, (hall c hc).2.2⟩)
    rw [hstem, contains_false_of_not_mem (natStr_no_underscore d),
      if_neg Bool.false_ne_true, py_int?_natStr d]
    dsimp only
    rw [if_pos hrange]
    norm_num
  · unfold dl_filename
    rw [if_neg h0]
    have hassoc : natStr d ++ '_' :: natStr (idx + 1) ++ '.' :: t =
        (natStr d ++ '_' :: natStr (idx + 1)) ++ '.' :: t := by
      simp
    rw [hassoc]
    unfold parse_filename
    have hstem : pathStem ((natStr d ++ '_' :: natStr (idx + 1)) ++
        '.' :: t) = natStr d ++ '_' :: natStr (idx + 1) :=
      pathStem_encode (by simp)
        (fun c hc => by
          rcases List.mem_append.mp hc with h | h
          · exact fun he => natStr_no_slash d (he ▸ h)
          · rcases List.mem_cons.mp h with h | h
            · subst h; decide
            · exact fun he => natStr_no_slash (idx + 1) (he ▸ h)) ht
        (fun c hc => ⟨(hall c hc).1, (hall c hc).2.2⟩)
    rw [hstem]
    have hcont : (natStr d ++ '_' :: natStr (idx + 1)).contains '_' = true :=
      contains_true_of_mem
        (List.mem_append_right _ (List.mem_cons_self _ _))
    rw [hcont, if_pos rfl,
      pySplit_pair (natStr_no_underscore d) (natStr_no_underscore (idx + 1))]
    dsimp only
    rw [py_int?_natStr d, py_int?_natStr (idx + 1)]
    dsimp only
    rw [if_pos hrange]

/-! ### Helper lemmas: the retrying fetcher -/

theorem dl_loop_retry_step (hash : Bytes → PyStr) (att : Nat → Attempt)
    (existing : Option Bytes) (attempt r : Nat) (hr : 0 < r)
    (hret : (att attempt).retryable = true) :
    dl_loop hash att existing attempt (r + 1) =
      ⟨(dl_loop hash att existing (attempt + 1) r).result,
        (dl_loop hash att existing (attempt + 1) r).file,
        retry_delay * 2 ^ attempt ::
          (dl_loop hash att existing (attempt + 1) r).sleeps⟩ := by
  cases hatt : att attempt with
  | ok c => rw [hatt] at hret; exact absurd hret (by simp [Attempt.retryable])
  | httpError s m =>
    rw [hatt] at hret
    have hs : s = 429 := by simpa [Attempt.retryable] using hret
    subst hs
    simp only [dl_loop, hatt]
    rw [if_pos trivial, if_pos hr]
  | exc en em =>
    simp only [dl_loop, hatt]
    rw [if_pos hr]

theorem dl_loop_last_sleeps (hash : Bytes → PyStr) (att : Nat → Attempt)
    (existing : Option Bytes) (attempt : Nat) :
    (dl_loop hash att existing attempt 1).sleeps = [] := by
  cases hatt : att attempt with
  | ok c =>
    simp only [dl_loop, hatt]
    cases existing
    · rfl
    · dsimp only
      split <;> rfl
  | httpError s m =>
    simp only [dl_loop, hatt]
    by_cases hs : s = 429
    · subst hs
      rw [if_pos rfl, if_neg (by omega : ¬(0 : Nat) < 0)]
    · rw [if_neg hs]
  | exc en em =>
    simp only [dl_loop, hatt]
    rw [if_neg (by omega : ¬(0 : Nat) < 0)]

theorem dl_loop_sleeps_le (hash : Bytes → PyStr) (att : Nat → Attempt)
    (existing : Option Bytes) :
    ∀ r, 0 < r → ∀ attempt,
      (dl_loop hash att existing attempt r).sleeps.length + 1 ≤ r := by
  intro r
  induction r with
  | zero => intro hr; exact absurd hr (by omega)
  | succ r ih =>
    intro _ attempt
    cases hatt : att attempt with
    | ok c =>
      simp only [dl_loop, hatt]
      cases existing
      · simp
      · dsimp only
        split <;> simp
    | httpError s m =>
      simp only [dl_loop, hatt]
      by_cases hs : s = 429
      · subst hs
        rw [if_pos rfl]
        by_cases hr : 0 < r
        · rw [if_pos hr]
          have := ih hr (attempt + 1)
          simp only [List.length_cons]
          omega
        · rw [if_neg hr]; simp
      · rw [if_neg hs]; simp
    | exc en em =>
      simp only [dl_loop, hatt]
      by_cases hr : 0 < r
      · rw [if_pos hr]
        have := ih hr (attempt + 1)
        simp only [List.length_cons]
        omega
      · rw [if_neg hr]; simp

/-! ### Helper lemmas: the rate limiter -/

theorem imgur_sleep_lower (last a : ℚ) :
    last + IMGUR_MIN_INTERVAL ≤ a + imgur_sleep last a := by
  unfold imgur_sleep
  split
  · linarith
  · next hge => linarith [not_lt.mp hge]

theorem validTrace_chain :
    ∀ (evs : List (ℚ × ℚ)) (last : ℚ), validTrace last evs →
      List.Chain' (fun a b : ℚ × ℚ => a.2 + IMGUR_MIN_INTERVAL ≤ b.2) evs := by
  intro evs
  induction evs with
  | nil => intro last h; exact List.chain'_nil
  | cons e rest ih =>
    intro last h
    obtain ⟨h1, h2, h3⟩ := h
    cases rest with
    | nil => exact List.chain'_singleton e
    | cons f rest' =>
      have g1 := h3.1
      have g2 := h3.2.1
      refine List.chain'_cons.mpr ⟨?_, ih e.2 h3⟩
      calc e.2 + IMGUR_MIN_INTERVAL ≤ f.1 + imgur_sleep e.2 f.1 :=
            imgur_sleep_lower e.2 f.1
        _ ≤ f.2 := g2

/-! ### Helper lemmas: per-run aggregation -/

theorem process_image_sum (dl : PyStr → PyStr × PyStr → DL) (sn : PyStr)
    (v idx : Nat) (u : PyStr) :
    (process_image dl sn v idx u).1.success +
        (process_image dl sn v idx u).1.failed +
        (process_image dl sn v idx u).1.skipped =
      (if u.isEmpty then 0 else 1) ∧
    (process_image dl sn v idx u).2.length =
      (process_image dl sn v idx u).1.failed := by
  unfold process_image
  split
  · simp
  · cases dl u (task_path sn v idx u) <;> simp

theorem process_course_sum (dl : PyStr → PyStr × PyStr → DL) (sn : PyStr)
    (v : Nat) :
    ∀ (images : List PyStr) (idx : Nat),
      (process_course dl sn v idx images).1.success +
          (process_course dl sn v idx images).1.failed +
          (process_course dl sn v idx images).1.skipped =
        images.countP (fun u => !u.isEmpty) ∧
      (process_course dl sn v idx images).2.length =
        (process_course dl sn v idx images).1.failed := by
  intro images
  induction images with
  | nil => intro idx; simp [process_course]
  | cons u rest ih =>
    intro idx
    obtain ⟨ihs, ihf⟩ := ih (idx + 1)
    obtain ⟨his, hif⟩ := process_image_sum dl sn v idx u
    unfold process_course
    constructor
    · simp only [addStats, List.countP_cons]
      by_cases hu : u.isEmpty
      · rw [if_pos hu] at his
        simp only [hu, Bool.not_true, if_neg (by decide : ¬(false = true))]
        omega
      · rw [if_neg hu] at his
        have : (!u.isEmpty) = true := by simp [hu]
        rw [this, if_pos rfl]
        omega
    · simp only [addStats, List.length_append]
      omega

theorem process_courses_sum (dl : PyStr → PyStr × PyStr → DL) (sn : PyStr)
    (courses : List (PyStr × Option Course)) :
    ∀ (mapping : List (PyStr × Nat)),
      (process_courses dl sn courses mapping).1.success +
          (process_courses dl sn courses mapping).1.failed +
          (process_courses dl sn courses mapping).1.skipped =
        count_images courses mapping ∧
      (process_courses dl sn courses mapping).2.length =
        (process_courses dl sn courses mapping).1.failed := by
  intro mapping
  induction mapping with
  | nil => simp [process_courses, count_images]
  | cons kv rest ih =>
    obtain ⟨ihs, ihf⟩ := ih
    unfold process_courses count_images
    cases hkv : courses.lookup kv.1 with
    | none => exact ⟨ihs, ihf⟩
    | some oc =>
      cases oc with
      | none => exact ⟨ihs, ihf⟩
      | some c =>
        obtain ⟨hcs, hcf⟩ := process_course_sum dl sn kv.2 c.images 0
        constructor
        · simp only [addStats]
          omega
        · simp only [addStats, List.length_append]
          omega

theorem process_song_sum (dl : PyStr → PyStr × PyStr → DL) (song : Song) :
    (process_song dl song).stats.success +
        (process_song dl song).stats.failed +
        (process_song dl song).stats.skipped =
      (if falsyId song.songNo then 1 else song_image_count song) ∧
    (process_song dl song).failures.length =
      (process_song dl song).stats.failed := by
  unfold process_song
  split
  · simp
  · exact process_courses_sum dl (song.songNo.getD []) song.courses
      difficulty_mapping

/-- C1 (amended): every dispatched download task (non-empty image URL under
a mapped difficulty key of a song with a truthy identifier) is classified
with exactly one of Success/Skipped/Failed, and at run end
`success + failed + skipped` equals the number of dispatched tasks PLUS the
number of records with a falsy identifier — a record without an identifier
is counted in the same `skipped` counter as deduplicated images (see the
counterexample), so the aggregate is not equal to the task count alone.
The failure ledger gets exactly one entry per Failed outcome. -/
theorem C1_outcome_totals (dl : PyStr → PyStr × PyStr → DL) :
    ∀ songs : List Song,
      (run_main dl songs).1.success + (run_main dl songs).1.failed +
          (run_main dl songs).1.skipped =
        ((songs.filter fun s => !falsyId s.songNo).map song_image_count).sum +
          songs.countP (fun s => falsyId s.songNo) ∧
      (run_main dl songs).2.length = (run_main dl songs).1.failed := by
  intro songs
  induction songs with
  | nil => simp [run_main]
  | cons s rest ih =>
    obtain ⟨ihs, ihf⟩ := ih
    obtain ⟨hss, hsf⟩ := process_song_sum dl s
    unfold run_main
    constructor
    · simp only [addStats, List.filter_cons, List.countP_cons]
      by_cases hf : falsyId s.songNo
      · rw [if_pos hf] at hss
        simp [hf]
        omega
      · rw [if_neg hf] at hss
        simp [hf, List.map_cons, List.sum_cons]
        omega
    · simp only [addStats, List.length_append]
      omega

/-! ### Helper lemmas: the manifest scanner -/

theorem mem_collectDifficulty {files : List PyStr} {fn : PyStr}
    {d seq : Int} (hfn : fn ∈ files) (himg : isImageFile fn = true)
    (hp : parse_filename fn = some (d, seq)) :
    (seq, fn) ∈ collectDifficulty files d := by
  unfold collectDifficulty
  rw [List.mem_insertionSort]
  refine List.mem_filterMap.mpr ⟨fn, hfn, ?_⟩
  rw [himg]
  simp [hp]

theorem collectDifficulty_sound {files : List PyStr} {d : Int}
    {p : Int × PyStr} (hp : p ∈ collectDifficulty files d) :
    p.2 ∈ files ∧ isImageFile p.2 = true ∧
      parse_filename p.2 = some (d, p.1) := by
  unfold collectDifficulty at hp
  rw [List.mem_insertionSort] at hp
  obtain ⟨fn, hfn, heq⟩ := List.mem_filterMap.mp hp
  by_cases himg : isImageFile fn = true
  · rw [himg] at heq
    rw [if_pos rfl] at heq
    cases hpf : parse_filename fn with
    | none => rw [hpf] at heq; simp at heq
    | some pr =>
      rw [hpf] at heq
      obtain ⟨d', s⟩ := pr
      dsimp only at heq
      by_cases hd : d' = d
      · subst hd
        rw [if_pos rfl] at heq
        have hp2 : (s, fn) = p := by simpa using heq
        obtain rfl := hp2.symm
        exact ⟨hfn, himg, hpf⟩
      · rw [if_neg hd] at heq
        simp at heq
  · rw [Bool.not_eq_true] at himg
    rw [himg] at heq
    simp at heq

theorem collectDifficulty_sorted (files : List PyStr) (d : Int) :
    List.Sorted (fun a b : Int × PyStr => a.1 ≤ b.1)
      (collectDifficulty files d) :=
  List.sorted_insertionSort _ _

theorem lookup_scan_song (chartId : PyStr) (files : List PyStr) {d : Nat}
    (h1 : 1 ≤ d) (h5 : d ≤ 5) :
    (scan_song chartId files).lookup (natStr d) =
      some ((collectDifficulty files (d : Int)).map fun p =>
        fileUrl chartId p.2) := by
  interval_cases d <;> rfl

theorem scan_charts_mem {dirs : List (PyStr × List PyStr)} {chartId : PyStr}
    {files : List PyStr} (h : (chartId, files) ∈ dirs) :
    (chartId, scan_song chartId files) ∈ scan_charts dirs := by
  unfold scan_charts
  exact List.mem_map.mpr ⟨(chartId, files),
    (List.perm_insertionSort _ _).mem_iff.mpr h, rfl⟩

theorem pathSuffix_dl_filename {d idx : Nat} {ext : PyStr}
    (hx : extOk ext = true) : pathSuffix (dl_filename d idx ext) = ext := by
  obtain ⟨t, he, ht, hall⟩ := extOk_shape hx
  subst he
  by_cases h0 : idx = 0
  · subst h0
    unfold dl_filename
    rw [if_pos rfl]
    exact pathSuffix_encode (natStr_ne_nil d)
      (fun c hc he => natStr_no_slash d (he ▸ hc)) ht
      (fun c hc => ⟨(hall c hc).1, (hall c hc).2.2⟩)
  · unfold dl_filename
    rw [if_neg h0]
    have hassoc : natStr d ++ '_' :: natStr (idx + 1) ++ '.' :: t =
        (natStr d ++ '_' :: natStr (idx + 1)) ++ '.' :: t := by
      simp
    rw [hassoc]
    exact pathSuffix_encode (by simp)
      (fun c hc => by
        rcases List.mem_append.mp hc with h | h
        · exact fun he => natStr_no_slash d (he ▸ h)
        · rcases List.mem_cons.mp h with h | h
          · subst h; decide
          · exact fun he => natStr_no_slash (idx + 1) (he ▸ h)) ht
      (fun c hc => ⟨(hall c hc).1, (hall c hc).2.2⟩)

/-! ### Claim theorems -/

/-- C1 counterexample: with one song record lacking its identifier (and no
images anywhere), the run-end aggregate `success + failed + skipped` is 1
while the total number of non-empty image URLs across all songs is 0, so
the aggregate does not equal the task total as the claim states. -/
theorem C1_counterexample :
    (run_main (fun _ _ => DL.success) [⟨none, []⟩]).1.success +
        (run_main (fun _ _ => DL.success) [⟨none, []⟩]).1.failed +
        (run_main (fun _ _ => DL.success) [⟨none, []⟩]).1.skipped = 1 ∧
      song_image_count ⟨none, []⟩ = 0 := by
  decide

/-- C2: for a fetch whose first attempt yields bytes `content`: with no file
at the destination the outcome is Success and the bytes are written; with an
existing file of equal digest the outcome is Skipped and the file is left as
it was; with an existing file of different digest the outcome is Success and
the file is overwritten.  No backoff sleep happens in any of the three
cases.  (`hash` abstracts the SHA-256 hex digest of `calculate_hash`.) -/
theorem C2_dedup_behavior (hash : Bytes → PyStr) (att : Nat → Attempt)
    (content : Bytes) (h : att 0 = .ok content) :
    download_image hash att none = ⟨.success, some content, []⟩ ∧
    (∀ old, hash old = hash content →
      download_image hash att (some old) = ⟨.skipped, some old, []⟩) ∧
    (∀ old, hash old ≠ hash content →
      download_image hash att (some old) = ⟨.success, some content, []⟩) := by
  refine ⟨?_, fun old he => ?_, fun old he => ?_⟩
  · unfold download_image max_retries
    simp only [dl_loop, h]
  · unfold download_image max_retries
    simp only [dl_loop, h]
    rw [if_pos he]
  · unfold download_image max_retries
    simp only [dl_loop, h]
    rw [if_neg he]

/-- C2 witness: a concrete fetch against an empty destination succeeds and
writes the fetched bytes. -/
theorem C2_dedup_behavior_witness :
    download_image (fun b => natStr (b.foldl (· + ·) 0))
        (fun _ => .ok [7, 7]) none =
      ⟨.success, some [7, 7], []⟩ :=
  (C2_dedup_behavior (fun b => natStr (b.foldl (· + ·) 0))
    (fun _ => .ok [7, 7]) [7, 7] rfl).1

/-- C4: when the first two attempts fail retryably (HTTP 429 or a non-HTTP
exception), the fetcher sleeps exactly twice, 2 s then 4 s (strictly
increasing exponential backoff `retry_delay * 2 ** attempt`); a retryable
failure on the third attempt exhausts the cap and yields Failed with a
reason naming the exhaustion, 429 being distinguished from generic
transport errors; and no run ever performs more than
`max_retries - 1 = 2` backoff sleeps. -/
theorem C4_retry_backoff (hash : Bytes → PyStr) (att : Nat → Attempt)
    (existing : Option Bytes) (h0 : (att 0).retryable = true)
    (h1 : (att 1).retryable = true) :
    (download_image hash att existing).sleeps = [2, 4] ∧
    (2 : ℚ) < 4 ∧
    (∀ m, att 2 = .httpError 429 m →
      (download_image hash att existing).result =
        .failed ("429 Too Many Requests after ".data ++ natStr max_retries ++
          " attempts".data)) ∧
    (∀ en em, att 2 = .exc en em →
      (download_image hash att existing).result =
        .failed (en ++ ": ".data ++ em)) ∧
    (∀ (hash' : Bytes → PyStr) (att' : Nat → Attempt)
      (existing' : Option Bytes),
      (download_image hash' att' existing').sleeps.length + 1 ≤
        max_retries) := by
  have s0 : download_image hash att existing =
      ⟨(dl_loop hash att existing 1 2).result,
        (dl_loop hash att existing 1 2).file,
        2 :: (dl_loop hash att existing 1 2).sleeps⟩ := by
    have h := dl_loop_retry_step hash att existing 0 2 (by omega) h0
    unfold download_image max_retries
    norm_num [retry_delay] at h
    exact h
  have s1 : dl_loop hash att existing 1 2 =
      ⟨(dl_loop hash att existing 2 1).result,
        (dl_loop hash att existing 2 1).file,
        4 :: (dl_loop hash att existing 2 1).sleeps⟩ := by
    have h := dl_loop_retry_step hash att existing 1 1 (by omega) h1
    norm_num [retry_delay] at h
    exact h
  refine ⟨?_, by norm_num, fun m hm => ?_, fun en em hm => ?_,
    fun hash' att' existing' => ?_⟩
  · rw [s0]
    dsimp only
    rw [s1]
    dsimp only
    rw [dl_loop_last_sleeps]
  · rw [s0]
    dsimp only
    rw [s1]
    dsimp only
    simp [dl_loop, hm]
  · rw [s0]
    dsimp only
    rw [s1]
    dsimp only
    simp [dl_loop, hm]
  · have h := dl_loop_sleeps_le hash' att' existing' 3 (by omega) 0
    simpa [download_image, max_retries] using h

/-- C4 witness: an oracle that answers 429 on every attempt satisfies the
retryability hypotheses; the run sleeps 2 s then 4 s and fails with the
exhaustion reason. -/
theorem C4_retry_backoff_witness :
    ((fun _ => Attempt.httpError 429 [] : Nat → Attempt) 0).retryable =
        true ∧
      (download_image (fun _ => []) (fun _ => .httpError 429 []) none).sleeps
        = [2, 4] :=
  ⟨by decide,
    (C4_retry_backoff (fun _ => []) (fun _ => .httpError 429 []) none
      (by decide) (by decide)).1⟩

/-- C5: a first attempt answered by a non-2xx, non-429 HTTP status fails
immediately: the status code appears in the reason string, the destination
file is untouched and no backoff sleep happens (no retry). -/
theorem C5_permanent_http (hash : Bytes → PyStr) (att : Nat → Attempt)
    (existing : Option Bytes) (status : Nat) (msg : PyStr)
    (hs : status ≠ 429) (h : att 0 = .httpError status msg) :
    download_image hash att existing =
      ⟨.failed ("HTTP Error ".data ++ natStr status ++ ": ".data ++ msg),
        existing, []⟩ := by
  unfold download_image max_retries
  simp only [dl_loop, h]
  rw [if_neg hs]

/-- C5 witness: a 404 on the first attempt fails at once with the status in
the reason. -/
theorem C5_permanent_http_witness :
    download_image (fun _ => []) (fun _ => .httpError 404 "nf".data) none =
      ⟨.failed ("HTTP Error ".data ++ natStr 404 ++ ": ".data ++ "nf".data),
        none, []⟩ :=
  C5_permanent_http (fun _ => []) (fun _ => .httpError 404 "nf".data) none
    404 "nf".data (by decide) rfl

/-- C6 (amended): a song record with a falsy identifier is converted to zero
download tasks, creates no directory, records no failure entry, and
increments the shared `skipped` counter — the same counter that counts
Skipped (deduplicated) images, not a distinct skipped-song counter — by
exactly 1. -/
theorem C6_skipped_song (dl : PyStr → PyStr × PyStr → DL) (song : Song)
    (h : falsyId song.songNo = true) :
    process_song dl song = ⟨⟨0, 0, 1⟩, [], []⟩ := by
  unfold process_song
  rw [if_pos h]

/-- C6 witness: a record with a missing identifier. -/
theorem C6_skipped_song_witness :
    falsyId (⟨none, []⟩ : Song).songNo = true ∧
      process_song (fun _ _ => DL.failed []) ⟨none, []⟩ =
        ⟨⟨0, 0, 1⟩, [], []⟩ :=
  ⟨rfl, C6_skipped_song (fun _ _ => DL.failed []) ⟨none, []⟩ rfl⟩

/-- C6 counterexample: the skipped-song count is not a distinct counter.
A run over one identifier-less record and one song whose single image is
deduplicated ends with the single `skipped` total equal to 2: the skipped
song and the skipped image land in the same counter (reported by `main` as
"skipped identical images"). -/
theorem C6_counterexample :
    (run_main (fun _ _ => DL.skipped)
        [⟨none, []⟩,
          ⟨some "7".data,
            [("oni".data, some ⟨["http://h/a.png".data]⟩)]⟩]).1 =
      ⟨0, 0, 2⟩ := by
  decide

/-- C7: under the mutex-serialized trace semantics of the imgur gate (each
event records its effective request start right after its in-section
sleep), the recorded start times of consecutive throttled requests are at
least `IMGUR_MIN_INTERVAL` apart; and the gate never delays a URL of any
other host. -/
theorem C7_rate_limiter (last : ℚ) (evs : List (ℚ × ℚ))
    (h : validTrace last evs) :
    List.Chain' (fun a b : ℚ × ℚ => a.2 + IMGUR_MIN_INTERVAL ≤ b.2) evs ∧
    ∀ (url : PyStr) (l now : ℚ), isImgurUrl url = false →
      gate_sleep url l now = 0 :=
  ⟨validTrace_chain evs last h,
    fun url l now hn => by simp [gate_sleep, hn]⟩

/-- C7 witness: a concrete two-request trace through the gate. -/
theorem C7_rate_limiter_witness :
    validTrace 0 [(0, 2), (5, 5)] ∧
      List.Chain' (fun a b : ℚ × ℚ => a.2 + IMGUR_MIN_INTERVAL ≤ b.2)
        [(0, 2), (5, 5)] := by
  have hv : validTrace 0 [((0 : ℚ), (2 : ℚ)), (5, 5)] := by
    refine ⟨le_refl 0, ?_, ?_, ?_, trivial⟩ <;>
      norm_num [imgur_sleep, IMGUR_MIN_INTERVAL]
  exact ⟨hv, (C7_rate_limiter 0 [(0, 2), (5, 5)] hv).1⟩

/-- C3 (amended): the resolver derives the extension from the URL path with
the query string stripped; the allow-list check is made on the LOWER-CASED
extension while the kept extension preserves its original case (so the
resolved extension is always allow-listed up to case, and a raw extension
whose lower-casing is not allow-listed — or a missing one — becomes
`.jpg`); names follow `{difficulty}{ext}` / `{difficulty}_{index+1}{ext}`,
and difficulty 4 with `a.png`, `b.png`, `c.gif` yields `4.png`, `4_2.png`,
`4_3.gif` in input order. -/
theorem C3_filename_resolution :
    (∀ url, allowed_extensions.contains
      (strLower (resolve_extension url)) = true) ∧
    (∀ url, allowed_extensions.contains (strLower (raw_extension url)) =
        false → resolve_extension url = ".jpg".data) ∧
    (∀ url, allowed_extensions.contains (strLower (raw_extension url)) =
        true → resolve_extension url = raw_extension url) ∧
    (∀ url q, '?' ∉ url → url_path (url ++ '?' :: q) = url) ∧
    (resolve_filename 4 0 "a.png".data = "4.png".data ∧
      resolve_filename 4 1 "b.png".data = "4_2.png".data ∧
      resolve_filename 4 2 "c.gif".data = "4_3.gif".data) := by
  refine ⟨fun url => ?_, fun url h => ?_, fun url h => ?_,
    fun url q h => ?_, by decide⟩
  · unfold resolve_extension
    split
    · next hc => exact hc
    · decide
  · unfold resolve_extension
    rw [if_neg (by rw [h]; exact Bool.false_ne_true)]
  · unfold resolve_extension
    rw [if_pos h]
  · unfold url_path
    exact takeWhile_append_stop
      (fun c hc => by
        have : c ≠ '?' := fun he => h (he ▸ hc)
        simp [this])
      (by simp)

/-- C3 counterexample: the claim's literal allow-list restriction fails on
upper-case extensions.  For the URL `http://h/a.PNG` the resolver keeps
`.PNG` — which is not in the allow-list — instead of defaulting to `.jpg`,
producing `4.PNG` rather than `4.jpg`. -/
theorem C3_counterexample :
    resolve_filename 4 0 "http://h/a.PNG".data = "4.PNG".data ∧
      allowed_extensions.contains ".PNG".data = false ∧
      "4.PNG".data ≠ "4.jpg".data := by
  decide

/-- C3 witness: the raw extension `.PNG` of `x.PNG` is allow-listed after
lower-casing, and is kept in its original case. -/
theorem C3_filename_resolution_witness :
    allowed_extensions.contains (strLower (raw_extension "x.PNG".data)) =
        true ∧
      resolve_extension "x.PNG".data = raw_extension "x.PNG".data :=
  ⟨by decide, C3_filename_resolution.2.2.1 "x.PNG".data (by decide)⟩

/-- C8 (amended): destination paths of tasks with distinct
(song id, difficulty value, image index) triples never collide, and the
path depends only on that triple TOGETHER WITH the URL-derived extension
(never on the fetched content): two URLs resolving to the same extension
give the same path.  (As the counterexample shows, the path is not a
function of the bare triple, and tasks differing only in URL can collide.) -/
theorem C8_path_unique :
    (∀ (s s' : PyStr) (d d' i i' : Nat) (u u' : PyStr),
      1 ≤ d → d ≤ 5 → 1 ≤ d' → d' ≤ 5 →
      ¬(s = s' ∧ d = d' ∧ i = i') →
      task_path s d i u ≠ task_path s' d' i' u') ∧
    (∀ (s : PyStr) (d i : Nat) (u u' : PyStr),
      resolve_extension u = resolve_extension u' →
      task_path s d i u = task_path s d i u') := by
  constructor
  · intro s s' d d' i i' u u' hd1 hd5 hd1' hd5' hne heq
    apply hne
    have hs : s = s' := congrArg Prod.fst heq
    have hf : resolve_filename d i u = resolve_filename d' i' u' :=
      congrArg Prod.snd heq
    have p1 : parse_filename (resolve_filename d i u) =
        some ((d : Int), ((i + 1 : Nat) : Int)) :=
      parse_dl_filename hd1 hd5 (extOk_resolve_extension u)
    have p2 : parse_filename (resolve_filename d' i' u') =
        some ((d' : Int), ((i' + 1 : Nat) : Int)) :=
      parse_dl_filename hd1' hd5' (extOk_resolve_extension u')
    have hcomb : some ((d : Int), ((i + 1 : Nat) : Int)) =
        some ((d' : Int), ((i' + 1 : Nat) : Int)) := by
      rw [← p1, hf, p2]
    have hdd : d = d' := by
      have hfst : ((d : Int), ((i + 1 : Nat) : Int)).1 =
          ((d' : Int), ((i' + 1 : Nat) : Int)).1 :=
        congrArg Prod.fst (Option.some.inj hcomb)
      simp only [Prod.fst] at hfst
      exact_mod_cast hfst
    have hii : i = i' := by
      have hsnd : ((d : Int), ((i + 1 : Nat) : Int)).2 =
          ((d' : Int), ((i' + 1 : Nat) : Int)).2 :=
        congrArg Prod.snd (Option.some.inj hcomb)
      simp only [Prod.snd] at hsnd
      have hnat : i + 1 = i' + 1 := by exact_mod_cast hsnd
      omega
    exact ⟨hs, hdd, hii⟩
  · intro s d i u u' h
    unfold task_path resolve_filename
    rw [h]

/-- C8 counterexample: two distinct tasks sharing (song, difficulty, index)
but with different URLs of the same extension collide on the same path, and
changing only the URL's extension changes the path — so the path neither
separates all distinct tasks nor depends only on the triple. -/
theorem C8_counterexample :
    task_path "7".data 4 0 "a.png".data = task_path "7".data 4 0 "b.png".data ∧
      "a.png".data ≠ "b.png".data ∧
      task_path "7".data 4 0 "a.png".data ≠
        task_path "7".data 4 0 "a.jpg".data := by
  decide

/-- C8 witness: two tasks in different song directories get different
paths. -/
theorem C8_path_unique_witness :
    task_path "1".data 1 0 "u.png".data ≠ task_path "2".data 1 0 "u.png".data :=
  C8_path_unique.1 "1".data "2".data 1 1 0 0 "u.png".data "u.png".data
    (by decide) (by decide) (by decide) (by decide) (by decide)

/-- C10: round trip between the downloader's naming and the manifest
parser: for every difficulty value 1..5, every image index, and every
extension of the downloader's allow-list, `parse_filename` applied to the
filename the downloader produces returns `(difficulty, index + 1)`. -/
theorem C10_roundtrip (d idx : Nat) (ext : PyStr) (h1 : 1 ≤ d) (h5 : d ≤ 5)
    (hm : ext ∈ allowed_extensions) :
    parse_filename (dl_filename d idx ext) =
      some ((d : Int), ((idx + 1 : Nat) : Int)) := by
  refine parse_dl_filename h1 h5 ?_
  fin_cases hm <;> decide

/-- C10 witness: the second oni image `4_2.png` parses back to
difficulty 4, sequence 2. -/
theorem C10_roundtrip_witness :
    parse_filename (dl_filename 4 1 ".png".data) = some (4, 2) := by
  have h := C10_roundtrip 4 1 ".png".data (by decide) (by decide) (by decide)
  simpa using h

/-- C9 (amended): for every file stored under a song directory with a name
the downloader can produce whose extension is in the SCANNER's allow-list
(the downloader's list minus `.bmp`; `.bmp` files are silently excluded,
see the counterexample), the manifest contains the file's URL under the
song's id and the difficulty's string key; each difficulty's list is sorted
by parsed sequence number; every listed entry comes from an image file of
the directory parsing to this difficulty (in 1..5); and every listed
directory contributes its scan to the manifest. -/
theorem C9_manifest :
    (∀ (chartId : PyStr) (files : List PyStr) (d idx : Nat) (ext : PyStr),
      1 ≤ d → d ≤ 5 → extOk ext = true →
      IMAGE_EXTENSIONS.contains (strLower ext) = true →
      dl_filename d idx ext ∈ files →
      fileUrl chartId (dl_filename d idx ext) ∈
        ((scan_song chartId files).lookup (natStr d)).getD []) ∧
    (∀ (files : List PyStr) (d : Int),
      List.Sorted (fun a b : Int × PyStr => a.1 ≤ b.1)
        (collectDifficulty files d)) ∧
    (∀ (files : List PyStr) (d : Int) (p : Int × PyStr),
      p ∈ collectDifficulty files d →
      p.2 ∈ files ∧ isImageFile p.2 = true ∧
        parse_filename p.2 = some (d, p.1)) ∧
    (∀ (dirs : List (PyStr × List PyStr)) (chartId : PyStr)
      (files : List PyStr), (chartId, files) ∈ dirs →
      (chartId, scan_song chartId files) ∈ scan_charts dirs) := by
  refine ⟨?_, collectDifficulty_sorted,
    fun files d p hp => collectDifficulty_sound hp,
    fun dirs chartId files h => scan_charts_mem h⟩
  intro chartId files d idx ext hd1 hd5 hok himg hmem
  have hparse : parse_filename (dl_filename d idx ext) =
      some ((d : Int), ((idx + 1 : Nat) : Int)) :=
    parse_dl_filename hd1 hd5 hok
  have himgf : isImageFile (dl_filename d idx ext) = true := by
    unfold isImageFile
    rw [pathSuffix_dl_filename hok]
    exact himg
  have hcol : (((idx + 1 : Nat) : Int), dl_filename d idx ext) ∈
      collectDifficulty files (d : Int) :=
    mem_collectDifficulty hmem himgf hparse
  rw [lookup_scan_song chartId files hd1 hd5]
  simp only [Option.getD_some]
  exact List.mem_map.mpr ⟨_, hcol, rfl⟩

/-- C9 counterexample: `4.bmp` is a name the downloader can produce
(`.bmp` is in its allow-list) and parses to difficulty 4, yet the scan of a
directory holding only that file yields empty lists for every difficulty —
the scanner's `IMAGE_EXTENSIONS` lacks `.bmp`, so the file is silently
excluded rather than included or reported as unparsable. -/
theorem C9_counterexample :
    ".bmp".data ∈ allowed_extensions ∧
      dl_filename 4 0 ".bmp".data = "4.bmp".data ∧
      parse_filename "4.bmp".data = some (4, 1) ∧
      scan_charts [("10".data, ["4.bmp".data])] =
        [("10".data,
          [("1".data, []), ("2".data, []), ("3".data, []), ("4".data, []),
            ("5".data, [])])] := by
  decide

/-- C9 witness: a stored `4.png` under song `10` is reachable in the
manifest under id `10`, key `"4"`. -/
theorem C9_manifest_witness :
    fileUrl "10".data "4.png".data ∈
      ((scan_song "10".data ["4.png".data]).lookup (natStr 4)).getD [] := by
  have h := C9_manifest.1 "10".data ["4.png".data] 4 0 ".png".data
    (by decide) (by decide) (by decide) (by decide) (by decide)
  simpa using h

end ChartDB
